import Mathlib

/-!
Verification of the sandboxed text-editing core of the filesystem server.

The development shallowly embeds the two primitives of the server
(`validatePath` and `findRange`) together with the seven marker-based
mutation operations and the tool dispatcher.  JavaScript strings are
modelled as `List Char` with code-unit offsets as `Nat`; the filesystem is
modelled as a `World` record carrying a `realpath` oracle (some = the call
resolves following symlinks, none = the call throws, e.g. ENOENT), the
working directory, the home directory and a map from paths to file
contents.  Fallible code is modelled with `Except` / explicit result
pairs.
-/

/-- Boolean test that `pat` occurs at the very start of `text`, comparing
character by character.  Models the JavaScript `String.prototype.startsWith`
and, equally, a literal (escaped) pattern matching at one position. -/
def startsWithChars : List Char → List Char → Bool
  | [], _ => true
  | _ :: _, [] => false
  | p :: ps, t :: ts => p == t && startsWithChars ps ts

/-- Model of the JavaScript `String.prototype.substring(a, b)`: the indices
are swapped when out of order and clamped to the string length (`drop` and
`take` clamp on their own). -/
def jsSubstring (content : List Char) (a b : Nat) : List Char :=
  (content.drop (min a b)).take (max a b - min a b)

/-- Fuel-driven scan for the least position `≥ j` at which `pat` occurs in
`content`.  The fuel bounds how many candidate positions are inspected. -/
def findFromAux (content pat : List Char) : Nat → Nat → Option Nat
  | _, 0 => none
  | j, fuel + 1 =>
    if startsWithChars pat (content.drop j) then some j
    else findFromAux content pat (j + 1) fuel

/-- Least position `≥ i` (up to `content.length` inclusive) at which `pat`
occurs literally in `content`; `none` when there is no such position.
Models `String.prototype.indexOf` from position `i`. -/
def findFrom (content pat : List Char) (i : Nat) : Option Nat :=
  findFromAux content pat i (content.length + 1 - i)

/-- Fuel-driven backtracking scan behind `findRange`: try every start
position `i` from left to right; at a position where `beforeText` matches
literally, look for the nearest following `afterText` (the lazy middle of
the regular expression); when none follows, backtrack to the next start
position, exactly as the regex engine does. -/
def findRangeAux (content beforeText afterText : List Char) : Nat → Nat → Option (Nat × Nat)
  | _, 0 => none
  | i, fuel + 1 =>
    if startsWithChars beforeText (content.drop i) then
      match findFrom content afterText (i + beforeText.length) with
      | some j => some (i + beforeText.length, j)
      | none => findRangeAux content beforeText afterText (i + 1) fuel
    else findRangeAux content beforeText afterText (i + 1) fuel

/-- Embedding of `findRange` from the source: the source builds the single
pattern `escapeRegExp(beforeText) + '(.*?)' + escapeRegExp(afterText)` with
the `s` flag and matches it against the whole content.  Both markers are
escaped, so they match literally; the middle `(.*?)` is lazy and crosses
line breaks; `String.prototype.match` returns the leftmost match.  This is
exactly the left-to-right scan of `findRangeAux`.  On a match the source
returns `[index + beforeText.length, index + match0.length - afterText.length]`,
i.e. the bounds of the captured middle region computed here directly. -/
def findRange (content beforeText afterText : List Char) : Option (Nat × Nat) :=
  findRangeAux content beforeText afterText 0 (content.length + 1)

/-- Occurrence of `pat` in `content` at offset `i`: the slice of length
`pat.length` starting at `i` exists and equals `pat`. -/
def occursAt (content pat : List Char) (i : Nat) : Prop :=
  (content.drop i).take pat.length = pat ∧ i + pat.length ≤ content.length

instance (content pat : List Char) (i : Nat) : Decidable (occursAt content pat i) :=
  inferInstanceAs (Decidable (_ ∧ _))

/-- Splits a character list at every separator character, keeping the
possibly empty chunks (an auxiliary accumulator holds the current chunk in
reverse). -/
def splitOnSlashAux : List Char → List Char → List (List Char)
  | [], acc => [acc.reverse]
  | c :: rest, acc =>
    if c == '/' then acc.reverse :: splitOnSlashAux rest []
    else splitOnSlashAux rest (c :: acc)

/-- Path segments of a POSIX path string: the nonempty chunks between
separators. -/
def splitSegs (p : List Char) : List (List Char) :=
  (splitOnSlashAux p []).filter (fun s => !s.isEmpty)

/-- Stack-based processing of `.` and `..` segments, as performed by Node's
`path.normalize` / `path.resolve` on an absolute path (a `..` above the
root is dropped). -/
def normSegsAux : List (List Char) → List (List Char) → List (List Char)
  | [], stack => stack.reverse
  | s :: rest, stack =>
    if s = ['.'] then normSegsAux rest stack
    else if s = ['.', '.'] then normSegsAux rest stack.tail
    else normSegsAux rest (s :: stack)

/-- Joins segments with the separator character. -/
def joinSegs : List (List Char) → List Char
  | [] => []
  | [s] => s
  | s :: rest => s ++ '/' :: joinSegs rest

/-- Absolute path string built from a segment list (the empty list gives the
root). -/
def absOfSegs (segs : List (List Char)) : List Char :=
  '/' :: joinSegs segs

/-- Node's `path.resolve` / `path.normalize` on an absolute path: split into
segments, process `.` and `..`, and rebuild. -/
def pathResolveAbs (p : List Char) : List Char :=
  absOfSegs (normSegsAux (splitSegs p) [])

/-- Whether the path string is absolute (starts with the separator). -/
def isAbsoluteChars (p : List Char) : Bool :=
  startsWithChars (['/']) p

/-- Case folding of a whole path string. -/
def toLowerChars (p : List Char) : List Char :=
  p.map Char.toLower

/-- Embedding of `normalizePath` from the source:
`path.normalize(p).toLowerCase()`, used on already absolute paths. -/
def normalizePath (p : List Char) : List Char :=
  toLowerChars (pathResolveAbs p)

/-- Embedding of `expandHome` from the source: a leading `~/` (or a bare
`~`) is replaced by the home directory via `path.join(os.homedir(),
filepath.slice(1))`, which concatenates and normalizes. -/
def expandHome (homedir p : List Char) : List Char :=
  if startsWithChars (['~', '/']) p || p == ['~'] then
    pathResolveAbs (homedir ++ p.drop 1)
  else p

/-- Node's `path.dirname` on a normalized absolute path: drop the last
segment (the root is its own parent). -/
def dirnameChars (p : List Char) : List Char :=
  absOfSegs ((splitSegs p).dropLast)

/-- Node's `path.resolve`: an absolute path is normalized, a relative path
is resolved against the current working directory. -/
def pathResolve (cwd p : List Char) : List Char :=
  if isAbsoluteChars p then pathResolveAbs p
  else pathResolveAbs (cwd ++ '/' :: p)

/-- Error taxonomy of the core, mirroring the distinct `throw new Error(...)`
sites of the source.  `rangeNotFound` stands for each of the per-operation
marker-failure messages (`Range not found`, `Range not found in source
file`, `Insert position not found`); `ioError` stands for an error thrown
by a filesystem read. -/
inductive Err where
  | accessDenied
  | parentNotFound
  | rangeNotFound
  | ioError
  | unknownTool (name : String)

/-- Representative user-visible message text of each error, as embedded in
the thrown `Error` objects of the source. -/
def errMessage : Err → List Char
  | Err.accessDenied => ("Access denied - path outside allowed directories").toList
  | Err.parentNotFound => ("Parent directory does not exist").toList
  | Err.rangeNotFound => ("Range not found").toList
  | Err.ioError => ("ENOENT: no such file or directory").toList
  | Err.unknownTool n => ("Unknown tool: ").toList ++ n.toList

/-- State visible to the core: the `realpath` oracle (`some` = the call
succeeds following symlinks, `none` = it throws), the process working
directory, the user's home directory, and the file contents map. -/
structure World where
  realpath : List Char → Option (List Char)
  cwd : List Char
  homedir : List Char
  contents : List Char → Option (List Char)

/-- Embedding of the catch-block of `validatePath`: on any error raised in
the `fs.realpath(absolute)` try-block the source verifies the parent
directory instead.  Note the inner try of the source wraps both the
`fs.realpath(parentDir)` call and the `Access denied - parent directory`
throw, so a parent outside the allowed roots is reported by the inner
catch as `Parent directory does not exist`. -/
def parentDirCheck (w : World) (absolute : List Char)
    (allowedDirectories : List (List Char)) : Except Err (List Char) :=
  let parentDir := dirnameChars absolute
  match w.realpath parentDir with
  | some realParentPath =>
    if allowedDirectories.any (fun dir => startsWithChars dir (normalizePath realParentPath)) then
      Except.ok absolute
    else Except.error Err.parentNotFound
  | none => Except.error Err.parentNotFound

/-- Embedding of `validatePath` from the source.  The containment check is
`normalizedRequested.startsWith(dir)`: a plain string prefix test on the
normalized, case-folded path.  The symlink re-check mirrors the source's
control flow faithfully: the `Access denied - symlink target outside
allowed directories` throw happens inside the same `try` whose `catch`
performs the parent-directory fallback, so a failed symlink re-check does
not surface; control falls into `parentDirCheck` instead. -/
def validatePath (w : World) (requestedPath : List Char)
    (allowedDirectories : List (List Char)) : Except Err (List Char) :=
  let expandedPath := expandHome w.homedir requestedPath
  let absolute := pathResolve w.cwd expandedPath
  let normalizedRequested := normalizePath absolute
  if allowedDirectories.any (fun dir => startsWithChars dir normalizedRequested) then
    match w.realpath absolute with
    | some realPath =>
      if allowedDirectories.any (fun dir => startsWithChars dir (normalizePath realPath)) then
        Except.ok realPath
      else parentDirCheck w absolute allowedDirectories
    | none => parentDirCheck w absolute allowedDirectories
  else Except.error Err.accessDenied

/-- Containment question the specification asks about: written from the
spec's words, a prefix match on full normalized path segments (the root's
segment list is a segment-list prefix of the path's).  This is the second,
spec-side definition against which the source's plain string prefix test
is compared. -/
def specSegmentContains (root p : List Char) : Bool :=
  List.isPrefixOf (splitSegs (normalizePath root)) (splitSegs (normalizePath p))

/-- Overwriting write of one file, modelling `fs.writeFile`. -/
def writeFileW (w : World) (p c : List Char) : World :=
  { w with contents := fun q => if q = p then some c else w.contents q }

/-- Embedding of the `delete_range` handler body after schema parsing:
validate the path, read the file, resolve the marker range, splice it out
with `content.substring(0, start) + content.substring(end)` and write the
result back. -/
def deleteRangeOp (w : World) (allowedDirectories : List (List Char))
    (p beforeText afterText : List Char) : World × Except Err (List Char) :=
  match validatePath w p allowedDirectories with
  | Except.error e => (w, Except.error e)
  | Except.ok validPath =>
    match w.contents validPath with
    | none => (w, Except.error Err.ioError)
    | some content =>
      match findRange content beforeText afterText with
      | none => (w, Except.error Err.rangeNotFound)
      | some (s, e) =>
        let newContent := jsSubstring content 0 s ++ content.drop e
        (writeFileW w validPath newContent,
          Except.ok (("Successfully deleted content from ").toList ++ p))

/-- Embedding of the `replace_block` handler body: the resolved span is
replaced by the new content,
`content.substring(0, start) + newText + content.substring(end)`. -/
def replaceBlockOp (w : World) (allowedDirectories : List (List Char))
    (p beforeText afterText newText : List Char) : World × Except Err (List Char) :=
  match validatePath w p allowedDirectories with
  | Except.error e => (w, Except.error e)
  | Except.ok validPath =>
    match w.contents validPath with
    | none => (w, Except.error Err.ioError)
    | some content =>
      match findRange content beforeText afterText with
      | none => (w, Except.error Err.rangeNotFound)
      | some (s, e) =>
        let newContent := jsSubstring content 0 s ++ newText ++ content.drop e
        (writeFileW w validPath newContent,
          Except.ok (("Successfully replaced content in ").toList ++ p))

/-- Embedding of the `insert_at_position` handler body: the new content is
inserted at the start offset of the resolved span and the bracketed text
is kept, `content.substring(0, start) + insertText + content.substring(start)`. -/
def insertAtPositionOp (w : World) (allowedDirectories : List (List Char))
    (p beforeText afterText insertText : List Char) : World × Except Err (List Char) :=
  match validatePath w p allowedDirectories with
  | Except.error e => (w, Except.error e)
  | Except.ok validPath =>
    match w.contents validPath with
    | none => (w, Except.error Err.ioError)
    | some content =>
      match findRange content beforeText afterText with
      | none => (w, Except.error Err.rangeNotFound)
      | some (s, _) =>
        let newContent := jsSubstring content 0 s ++ insertText ++ content.drop s
        (writeFileW w validPath newContent,
          Except.ok (("Successfully inserted content in ").toList ++ p))

/-- Embedding of the `copy_to_new_file` handler body: both paths are
validated (source first), the span `content.substring(start, end)` is
extracted and written to the target; the source is untouched. -/
def copyToNewFileOp (w : World) (allowedDirectories : List (List Char))
    (sourcePath targetPath beforeText afterText : List Char) :
    World × Except Err (List Char) :=
  match validatePath w sourcePath allowedDirectories with
  | Except.error e => (w, Except.error e)
  | Except.ok validSourcePath =>
    match validatePath w targetPath allowedDirectories with
    | Except.error e => (w, Except.error e)
    | Except.ok validTargetPath =>
      match w.contents validSourcePath with
      | none => (w, Except.error Err.ioError)
      | some content =>
        match findRange content beforeText afterText with
        | none => (w, Except.error Err.rangeNotFound)
        | some (s, e) =>
          let extractedContent := jsSubstring content s e
          (writeFileW w validTargetPath extractedContent,
            Except.ok (("Successfully copied content to ").toList ++ targetPath))

/-- Embedding of the `cut_to_new_file` handler body: the extracted span is
written to the target, then the source is rewritten with the span spliced
out; two independent writes in this order. -/
def cutToNewFileOp (w : World) (allowedDirectories : List (List Char))
    (sourcePath targetPath beforeText afterText : List Char) :
    World × Except Err (List Char) :=
  match validatePath w sourcePath allowedDirectories with
  | Except.error e => (w, Except.error e)
  | Except.ok validSourcePath =>
    match validatePath w targetPath allowedDirectories with
    | Except.error e => (w, Except.error e)
    | Except.ok validTargetPath =>
      match w.contents validSourcePath with
      | none => (w, Except.error Err.ioError)
      | some content =>
        match findRange content beforeText afterText with
        | none => (w, Except.error Err.rangeNotFound)
        | some (s, e) =>
          let extractedContent := jsSubstring content s e
          let newContent := jsSubstring content 0 s ++ content.drop e
          let w1 := writeFileW w validTargetPath extractedContent
          (writeFileW w1 validSourcePath newContent,
            Except.ok (("Successfully moved content to ").toList ++ targetPath))

/-- Embedding of the `append_to_file` handler body: the extracted span is
appended to the target with `fs.appendFile`, which creates the target when
absent. -/
def appendToFileOp (w : World) (allowedDirectories : List (List Char))
    (sourcePath targetPath beforeText afterText : List Char) :
    World × Except Err (List Char) :=
  match validatePath w sourcePath allowedDirectories with
  | Except.error e => (w, Except.error e)
  | Except.ok validSourcePath =>
    match validatePath w targetPath allowedDirectories with
    | Except.error e => (w, Except.error e)
    | Except.ok validTargetPath =>
      match w.contents validSourcePath with
      | none => (w, Except.error Err.ioError)
      | some content =>
        match findRange content beforeText afterText with
        | none => (w, Except.error Err.rangeNotFound)
        | some (s, e) =>
          let extractedContent := jsSubstring content s e
          let oldTarget := (w.contents validTargetPath).getD []
          (writeFileW w validTargetPath (oldTarget ++ extractedContent),
            Except.ok (("Successfully appended content to ").toList ++ targetPath))

/-- Model of the ECMAScript `String.prototype.replace` with a non-global
literal pattern: only the first (leftmost) occurrence is replaced, and a
string without an occurrence is returned unchanged. -/
def jsReplaceFirst (content pat repl : List Char) : List Char :=
  match findFrom content pat 0 with
  | none => content
  | some i => content.take i ++ repl ++ content.drop (i + pat.length)

/-- Fuel-driven loop of the global replace: at every position, if the
literal pattern matches it is consumed and the replacement emitted (an
empty match advances by one keeping the current character, as the
ECMAScript `lastIndex` bump prescribes); otherwise the character is kept. -/
def jsReplaceAllGo (pat repl : List Char) : Nat → List Char → List Char
  | 0, rest => rest
  | fuel + 1, rest =>
    if startsWithChars pat rest then
      match pat, rest with
      | [], [] => repl
      | [], c :: rs => repl ++ c :: jsReplaceAllGo [] repl fuel rs
      | q :: qs, _ => repl ++ jsReplaceAllGo (q :: qs) repl fuel (rest.drop (q :: qs).length)
    else
      match rest with
      | [] => []
      | c :: rs => c :: jsReplaceAllGo pat repl fuel rs

/-- Model of the ECMAScript `String.prototype.replace` with a global
literal pattern: every (leftmost, non-overlapping) occurrence is replaced. -/
def jsReplaceAll (content pat repl : List Char) : List Char :=
  jsReplaceAllGo pat repl (content.length + 1) content

/-- Embedding of the content transformation of `replace_by_pattern`:
`content.replace(new RegExp(pattern, flags), replacement)`.  The regular
expression engine is modelled for patterns free of metacharacters (the
pattern matches literally, as in the claims' instances); a replacement
without `$` sequences is inserted verbatim.  The global flag is the
presence of `g` in the caller-supplied flags (absent flags mean none). -/
def replaceByPatternContent (content pat : List Char) (flags : Option (List Char))
    (repl : List Char) : List Char :=
  if (flags.getD []).contains 'g' then jsReplaceAll content pat repl
  else jsReplaceFirst content pat repl

/-- Embedding of the `replace_by_pattern` handler body: validate, read the
whole file, substitute on the whole content, write back. -/
def replaceByPatternOp (w : World) (allowedDirectories : List (List Char))
    (p pat : List Char) (flags : Option (List Char)) (repl : List Char) :
    World × Except Err (List Char) :=
  match validatePath w p allowedDirectories with
  | Except.error e => (w, Except.error e)
  | Except.ok validPath =>
    match w.contents validPath with
    | none => (w, Except.error Err.ioError)
    | some content =>
      (writeFileW w validPath (replaceByPatternContent content pat flags repl),
        Except.ok (("Successfully replaced content in ").toList ++ p))

/-- One content block of a tool result, `{type, text}`. -/
structure ContentBlock where
  type : List Char
  text : List Char

/-- Uniform result shape of a tool call: a list of content blocks and the
error flag. -/
structure ToolResult where
  content : List ContentBlock
  isError : Bool

/-- Typed tool invocations of the mutation surface (the declarative schema
layer upstream has already validated the argument shapes); `unknownTool`
models the dispatcher's default branch. -/
inductive ToolRequest where
  | deleteRange (path beforeText afterText : List Char)
  | replaceBlock (path beforeText afterText newText : List Char)
  | insertAtPosition (path beforeText afterText insertText : List Char)
  | copyToNewFile (sourcePath targetPath beforeText afterText : List Char)
  | cutToNewFile (sourcePath targetPath beforeText afterText : List Char)
  | appendToFile (sourcePath targetPath beforeText afterText : List Char)
  | replaceByPattern (path pat : List Char) (flags : Option (List Char)) (replacement : List Char)
  | unknownTool (name : String)

/-- Inner dispatch of the `CallToolRequest` handler: the switch over tool
names; every failure is an `Except.error` travelling towards the
surrounding catch. -/
def dispatchTool (w : World) (allowedDirectories : List (List Char))
    (req : ToolRequest) : World × Except Err (List Char) :=
  match req with
  | ToolRequest.deleteRange p b a => deleteRangeOp w allowedDirectories p b a
  | ToolRequest.replaceBlock p b a n => replaceBlockOp w allowedDirectories p b a n
  | ToolRequest.insertAtPosition p b a n => insertAtPositionOp w allowedDirectories p b a n
  | ToolRequest.copyToNewFile sp tp b a => copyToNewFileOp w allowedDirectories sp tp b a
  | ToolRequest.cutToNewFile sp tp b a => cutToNewFileOp w allowedDirectories sp tp b a
  | ToolRequest.appendToFile sp tp b a => appendToFileOp w allowedDirectories sp tp b a
  | ToolRequest.replaceByPattern p pat flags repl => replaceByPatternOp w allowedDirectories p pat flags repl
  | ToolRequest.unknownTool n => (w, Except.error (Err.unknownTool n))

/-- Embedding of the catch at the `CallToolRequest` boundary: a successful
handler result becomes one text block; any internal error becomes one text
block whose text is the error message prefixed with `Error: `, with the
`isError` flag set, instead of propagating. -/
def handleCallTool (w : World) (allowedDirectories : List (List Char))
    (req : ToolRequest) : World × ToolResult :=
  match dispatchTool w allowedDirectories req with
  | (w2, Except.ok text) =>
    (w2, { content := [{ type := ("text").toList, text := text }], isError := false })
  | (w2, Except.error e) =>
    (w2, { content := [{ type := ("text").toList, text := ("Error: ").toList ++ errMessage e }],
           isError := true })

/-- Allowed-roots list used by the concrete scenarios: the single root
`/data`, stored normalized and case-folded as at process start. -/
def allowedDataRoots : List (List Char) :=
  [("/data").toList]

/-- Concrete world with a sibling directory `/database` whose name has the
allowed root `/data` as a plain string prefix; no symlinks, every listed
path is its own real path. -/
def siblingWorld : World where
  realpath := fun q =>
    if q = ("/database").toList then some (("/database").toList)
    else if q = ("/data").toList then some (("/data").toList)
    else if q = ("/").toList then some (("/").toList)
    else none
  cwd := ("/").toList
  homedir := ("/home/user").toList
  contents := fun _ => none

/-- Concrete world with a symlink `/data/link` inside the allowed root
whose target `/outside/secret` is outside every allowed root, and a
symlink `/data/inside` whose target `/data/real` is inside. -/
def symlinkWorld : World where
  realpath := fun q =>
    if q = ("/data/link").toList then some (("/outside/secret").toList)
    else if q = ("/data/inside").toList then some (("/data/real").toList)
    else if q = ("/data/real").toList then some (("/data/real").toList)
    else if q = ("/data").toList then some (("/data").toList)
    else none
  cwd := ("/").toList
  homedir := ("/home/user").toList
  contents := fun _ => none

/-- Concrete world for the mutation-operation scenarios: one source file
with CRLF line endings and a bracketed region, and a target file path. -/
def opsWorld : World where
  realpath := fun q =>
    if q = ("/data").toList then some (("/data").toList)
    else if q = ("/data/src.txt").toList then some (("/data/src.txt").toList)
    else if q = ("/data/tgt.txt").toList then some (("/data/tgt.txt").toList)
    else none
  cwd := ("/data").toList
  homedir := ("/home/user").toList
  contents := fun q =>
    if q = ("/data/src.txt").toList then some (("a\r\nXmidY\r\nb").toList) else none

/-- Characterization of the literal prefix test. -/
theorem startsWithChars_iff (pat : List Char) : ∀ text : List Char,
    startsWithChars pat text = true ↔
      (text.take pat.length = pat ∧ pat.length ≤ text.length) := by
  induction pat with
  | nil => intro text; simp [startsWithChars]
  | cons p ps ih =>
    intro text
    cases text with
    | nil => simp [startsWithChars]
    | cons t ts =>
      simp only [startsWithChars, Bool.and_eq_true, beq_iff_eq, ih ts, List.length_cons,
        List.take_succ_cons, List.cons.injEq, Nat.add_le_add_iff_right]
      constructor
      · rintro ⟨h1, h2, h3⟩
        exact ⟨⟨h1.symm, h2⟩, h3⟩
      · rintro ⟨⟨h1, h2⟩, h3⟩
        exact ⟨h1.symm, h2, h3⟩

/-- Occurrence in terms of the executable prefix test. -/
theorem occursAt_iff (content pat : List Char) (i : Nat) :
    occursAt content pat i ↔
      (startsWithChars pat (content.drop i) = true ∧ i ≤ content.length) := by
  rw [occursAt, startsWithChars_iff, List.length_drop]
  constructor
  · rintro ⟨h1, h2⟩
    exact ⟨⟨h1, by omega⟩, by omega⟩
  · rintro ⟨⟨h1, h2⟩, h3⟩
    exact ⟨h1, by omega⟩

/-- Soundness of the fuel-driven scan: a hit is in range, matches, and is
the least matching position at or after the start. -/
theorem findFromAux_some (content pat : List Char) :
    ∀ fuel j k, findFromAux content pat j fuel = some k →
      j ≤ k ∧ k < j + fuel ∧ startsWithChars pat (content.drop k) = true ∧
        ∀ m, j ≤ m → m < k → startsWithChars pat (content.drop m) = false := by
  intro fuel
  induction fuel with
  | zero =>
    intro j k h
    simp [findFromAux] at h
  | succ fuel ih =>
    intro j k h
    simp only [findFromAux] at h
    cases hb : startsWithChars pat (content.drop j) with
    | true =>
      rw [hb] at h
      simp only [if_pos] at h
      cases h
      refine ⟨Nat.le_refl _, by omega, hb, ?_⟩
      intro m hm1 hm2
      omega
    | false =>
      rw [hb] at h
      simp only [Bool.false_eq_true, if_false] at h
      obtain ⟨h1, h2, h3, h4⟩ := ih (j + 1) k h
      refine ⟨by omega, by omega, h3, ?_⟩
      intro m hm1 hm2
      rcases Nat.eq_or_lt_of_le hm1 with hm | hm
      · rw [← hm]
        exact hb
      · exact h4 m hm hm2

/-- Completeness of the fuel-driven scan: a miss means no position in the
inspected window matches. -/
theorem findFromAux_none (content pat : List Char) :
    ∀ fuel j, findFromAux content pat j fuel = none →
      ∀ m, j ≤ m → m < j + fuel → startsWithChars pat (content.drop m) = false := by
  intro fuel
  induction fuel with
  | zero =>
    intro j _ m hm1 hm2
    omega
  | succ fuel ih =>
    intro j h m hm1 hm2
    simp only [findFromAux] at h
    cases hb : startsWithChars pat (content.drop j) with
    | true =>
      rw [hb] at h
      simp at h
    | false =>
      rw [hb] at h
      simp only [Bool.false_eq_true, if_false] at h
      rcases Nat.eq_or_lt_of_le hm1 with hm | hm
      · rw [← hm]
        exact hb
      · exact ih (j + 1) h m hm (by omega)

/-- Soundness of `findFrom`: the result is the least occurrence position at
or after the start, and lies within the content. -/
theorem findFrom_some (content pat : List Char) (i k : Nat)
    (h : findFrom content pat i = some k) :
    i ≤ k ∧ k ≤ content.length ∧ startsWithChars pat (content.drop k) = true ∧
      ∀ m, i ≤ m → m < k → startsWithChars pat (content.drop m) = false := by
  obtain ⟨h1, h2, h3, h4⟩ := findFromAux_some content pat (content.length + 1 - i) i k h
  exact ⟨h1, by omega, h3, h4⟩

/-- Completeness of `findFrom`: on `none` there is no occurrence at or
after the start. -/
theorem findFrom_none (content pat : List Char) (i : Nat)
    (h : findFrom content pat i = none) :
    ∀ m, i ≤ m → m ≤ content.length → startsWithChars pat (content.drop m) = false := by
  intro m hm1 hm2
  exact findFromAux_none content pat (content.length + 1 - i) i h m hm1 (by omega)

/-- An occurrence at or after the start forces `findFrom` to answer. -/
theorem findFrom_isSome (content pat : List Char) (i m : Nat) (hm : i ≤ m)
    (hml : m ≤ content.length)
    (hp : startsWithChars pat (content.drop m) = true) :
    ∃ k, findFrom content pat i = some k := by
  cases hf : findFrom content pat i with
  | some k => exact ⟨k, rfl⟩
  | none =>
    rw [findFrom_none content pat i hf m hm hml] at hp
    cases hp

/-- A miss of `findFrom` persists when the start moves right. -/
theorem findFrom_none_mono (content pat : List Char) (i j : Nat) (hij : i ≤ j)
    (h : findFrom content pat i = none) : findFrom content pat j = none := by
  cases hf : findFrom content pat j with
  | none => rfl
  | some k =>
    obtain ⟨h1, h2, h3, _⟩ := findFrom_some content pat j k hf
    rw [findFrom_none content pat i h k (Nat.le_trans hij h1) h2] at h3
    cases h3

/-- Soundness of the backtracking scan: a hit comes from a start position
where `beforeText` matches and the lazy search for `afterText` succeeds,
and every earlier candidate start in the window fails one of the two. -/
theorem findRangeAux_some (content beforeText afterText : List Char) :
    ∀ fuel i s e, findRangeAux content beforeText afterText i fuel = some (s, e) →
      ∃ i2, i ≤ i2 ∧ i2 < i + fuel ∧
        startsWithChars beforeText (content.drop i2) = true ∧
        s = i2 + beforeText.length ∧
        findFrom content afterText (i2 + beforeText.length) = some e ∧
        ∀ m, i ≤ m → m < i2 →
          startsWithChars beforeText (content.drop m) = false ∨
            findFrom content afterText (m + beforeText.length) = none := by
  intro fuel
  induction fuel with
  | zero =>
    intro i s e h
    simp [findRangeAux] at h
  | succ fuel ih =>
    intro i s e h
    simp only [findRangeAux] at h
    cases hb : startsWithChars beforeText (content.drop i) with
    | true =>
      rw [hb] at h
      simp only [if_pos] at h
      split at h
      next j hf =>
        injection h with h2
        injection h2 with h3 h4
        refine ⟨i, Nat.le_refl i, by omega, hb, h3.symm, by rw [hf, h4], ?_⟩
        intro m hm1 hm2
        omega
      next hf =>
        obtain ⟨i2, g1, g2, g3, g4, g5, g6⟩ := ih (i + 1) s e h
        refine ⟨i2, by omega, by omega, g3, g4, g5, ?_⟩
        intro m hm1 hm2
        rcases Nat.eq_or_lt_of_le hm1 with hm | hm
        · right
          rw [← hm]
          exact hf
        · exact g6 m hm hm2
    | false =>
      rw [hb] at h
      simp only [Bool.false_eq_true, if_false] at h
      obtain ⟨i2, g1, g2, g3, g4, g5, g6⟩ := ih (i + 1) s e h
      refine ⟨i2, by omega, by omega, g3, g4, g5, ?_⟩
      intro m hm1 hm2
      rcases Nat.eq_or_lt_of_le hm1 with hm | hm
      · left
        rw [← hm]
        exact hb
      · exact g6 m hm hm2

/-- Completeness of the backtracking scan: a miss means every start
position in the window fails the match or the lazy search. -/
theorem findRangeAux_none (content beforeText afterText : List Char) :
    ∀ fuel i, findRangeAux content beforeText afterText i fuel = none →
      ∀ m, i ≤ m → m < i + fuel →
        startsWithChars beforeText (content.drop m) = false ∨
          findFrom content afterText (m + beforeText.length) = none := by
  intro fuel
  induction fuel with
  | zero =>
    intro i _ m hm1 hm2
    omega
  | succ fuel ih =>
    intro i h m hm1 hm2
    simp only [findRangeAux] at h
    cases hb : startsWithChars beforeText (content.drop i) with
    | true =>
      rw [hb] at h
      simp only [if_pos] at h
      split at h
      next j hf =>
        cases h
      next hf =>
        rcases Nat.eq_or_lt_of_le hm1 with hm | hm
        · right
          rw [← hm]
          exact hf
        · exact ih (i + 1) h m hm (by omega)
    | false =>
      rw [hb] at h
      simp only [Bool.false_eq_true, if_false] at h
      rcases Nat.eq_or_lt_of_le hm1 with hm | hm
      · left
        rw [← hm]
        exact hb
      · exact ih (i + 1) h m hm (by omega)

/-- Full characterization of a successful `findRange`: the span starts just
past the first occurrence of `beforeText` in the whole content and ends at
the nearest occurrence of `afterText` at or after that start. -/
theorem findRange_eq_some_spec (content beforeText afterText : List Char) (s e : Nat)
    (h : findRange content beforeText afterText = some (s, e)) :
    beforeText.length ≤ s ∧ s ≤ e ∧
      occursAt content beforeText (s - beforeText.length) ∧
      (∀ m, m < s - beforeText.length → ¬ occursAt content beforeText m) ∧
      occursAt content afterText e ∧
      (∀ j, s ≤ j → j < e → ¬ occursAt content afterText j) := by
  obtain ⟨i2, g1, g2, g3, g4, g5, g6⟩ :=
    findRangeAux_some content beforeText afterText (content.length + 1) 0 s e h
  obtain ⟨f1, f2, f3, f4⟩ := findFrom_some content afterText (i2 + beforeText.length) e g5
  have hi2len : i2 ≤ content.length := by omega
  have hs : s - beforeText.length = i2 := by omega
  refine ⟨by omega, by omega, ?_, ?_, ?_, ?_⟩
  · rw [hs]
    exact (occursAt_iff content beforeText i2).mpr ⟨g3, hi2len⟩
  · intro m hm hc
    rw [hs] at hm
    have hc2 := (occursAt_iff content beforeText m).mp hc
    rcases g6 m (Nat.zero_le m) hm with hg | hg
    · rw [hc2.1] at hg
      cases hg
    · have hnone := findFrom_none_mono content afterText (m + beforeText.length)
        (i2 + beforeText.length) (by omega) hg
      rw [hnone] at g5
      cases g5
  · exact (occursAt_iff content afterText e).mpr ⟨f3, f2⟩
  · intro j hj1 hj2 hc
    have hc2 := (occursAt_iff content afterText j).mp hc
    rw [f4 j (by omega) hj2] at hc2
    simp at hc2

/-- Characterization of a failed `findRange`: no occurrence of `beforeText`
is followed (at or past its end) by an occurrence of `afterText`. -/
theorem findRange_eq_none_spec (content beforeText afterText : List Char)
    (h : findRange content beforeText afterText = none) :
    ∀ i j, occursAt content beforeText i → occursAt content afterText j →
      i + beforeText.length ≤ j → False := by
  intro i j hb ha hij
  have hb2 := (occursAt_iff content beforeText i).mp hb
  have ha2 := (occursAt_iff content afterText j).mp ha
  rcases findRangeAux_none content beforeText afterText (content.length + 1) 0 h i
      (Nat.zero_le i) (by omega) with hg | hg
  · rw [hb2.1] at hg
    cases hg
  · obtain ⟨k, hk⟩ := findFrom_isSome content afterText (i + beforeText.length) j hij ha2.2 ha2.1
    rw [hk] at hg
    cases hg

/-- A bracketing pair of occurrences forces `findRange` to answer. -/
theorem findRange_isSome_of (content beforeText afterText : List Char) (i j : Nat)
    (hb : occursAt content beforeText i) (ha : occursAt content afterText j)
    (hij : i + beforeText.length ≤ j) :
    ∃ s e, findRange content beforeText afterText = some (s, e) := by
  cases hr : findRange content beforeText afterText with
  | some se =>
    obtain ⟨s, e⟩ := se
    exact ⟨s, e, rfl⟩
  | none => exact (findRange_eq_none_spec content beforeText afterText hr i j hb ha hij).elim

/-- A substring starting at zero is a `take`. -/
theorem jsSubstring_zero (content : List Char) (s : Nat) :
    jsSubstring content 0 s = content.take s := by
  simp [jsSubstring]

/-- With ordered indices `jsSubstring` is the usual slice. -/
theorem jsSubstring_of_le (content : List Char) (s e : Nat) (h : s ≤ e) :
    jsSubstring content s e = (content.drop s).take (e - s) := by
  rw [jsSubstring, Nat.min_eq_left h, Nat.max_eq_right h]

/-- Splicing identities for an in-bounds span: taking and dropping at the
cut point of the spliced-out content recovers the two halves, and
re-inserting the extracted span reconstructs the original. -/
theorem splice_reconstruct (content : List Char) (s e : Nat) (hse : s ≤ e)
    (hel : e ≤ content.length) :
    (content.take s ++ content.drop e).take s = content.take s ∧
    (content.take s ++ content.drop e).drop s = content.drop e ∧
    content.take s ++ ((content.drop s).take (e - s) ++ content.drop e) = content := by
  have hlen : (content.take s).length = s := by
    rw [List.length_take]
    omega
  refine ⟨?_, ?_, ?_⟩
  · calc (content.take s ++ content.drop e).take s
        = (content.take s ++ content.drop e).take (content.take s).length := by rw [hlen]
      _ = content.take s := by simp
  · calc (content.take s ++ content.drop e).drop s
        = (content.take s ++ content.drop e).drop (content.take s).length := by rw [hlen]
      _ = content.drop e := by simp
  · have h2 : content.take s ++ (content.drop s).take (e - s) = content.take e := by
      have h3 := List.take_add content s (e - s)
      rw [show s + (e - s) = e by omega] at h3
      exact h3.symm
    calc content.take s ++ ((content.drop s).take (e - s) ++ content.drop e)
        = (content.take s ++ (content.drop s).take (e - s)) ++ content.drop e := by
          rw [List.append_assoc]
      _ = content.take e ++ content.drop e := by rw [h2]
      _ = content := List.take_append_drop e content

/-- Claim C1 fails on the code: the containment check of `validatePath` is
a plain string prefix test, not a prefix match on full normalized path
segments.  With the single allowed root `/data`, the sibling directory
`/database` — whose canonical real form is itself and lies outside every
allowed root in the segment sense — passes validation and is returned,
instead of failing with access denied. -/
theorem spec_c1 :
    siblingWorld.realpath (("/database").toList) = some (("/database").toList) ∧
    specSegmentContains (("/data").toList) (("/database").toList) = false ∧
    validatePath siblingWorld (("/database").toList) allowedDataRoots =
      Except.ok (("/database").toList) :=
  ⟨rfl, rfl, rfl⟩

/-- Claim C2 fails on the code: a symlink `/data/link` inside the allowed
root whose real target `/outside/secret` is outside every allowed root is
not rejected.  The symlink re-check throws inside the same try whose catch
performs the parent-directory fallback, the parent `/data` is allowed, and
`validatePath` returns the symlink path successfully.  The second half of
the claim does hold: a symlink `/data/inside` resolving to `/data/real`
inside the root is accepted and resolved to its real path. -/
theorem spec_c2 :
    symlinkWorld.realpath (("/data/link").toList) = some (("/outside/secret").toList) ∧
    specSegmentContains (("/data").toList) (("/outside/secret").toList) = false ∧
    validatePath symlinkWorld (("/data/link").toList) allowedDataRoots =
      Except.ok (("/data/link").toList) ∧
    validatePath symlinkWorld (("/data/inside").toList) allowedDataRoots =
      Except.ok (("/data/real").toList) :=
  ⟨rfl, rfl, rfl, rfl⟩

/-- Claim C3: whenever a bracketing match exists, `findRange` returns the
span whose start is just past the first occurrence of `beforeText` and
whose end is the nearest occurrence of `afterText` at or after that start,
excluding both markers; when no bracketing match exists it returns
`none`; and on content `X123Y456Y` with markers `X`, `Y` the span covers
exactly `123`. -/
theorem spec_c3 :
    (∀ content beforeText afterText : List Char,
      (∃ i j, occursAt content beforeText i ∧ occursAt content afterText j ∧
          i + beforeText.length ≤ j) →
      ∃ s e, findRange content beforeText afterText = some (s, e) ∧
        beforeText.length ≤ s ∧
        occursAt content beforeText (s - beforeText.length) ∧
        (∀ m, m < s - beforeText.length → ¬ occursAt content beforeText m) ∧
        s ≤ e ∧
        occursAt content afterText e ∧
        (∀ j2, s ≤ j2 → j2 < e → ¬ occursAt content afterText j2)) ∧
    (∀ content beforeText afterText : List Char,
      (¬ ∃ i j, occursAt content beforeText i ∧ occursAt content afterText j ∧
          i + beforeText.length ≤ j) →
      findRange content beforeText afterText = none) ∧
    (findRange (("X123Y456Y").toList) (("X").toList) (("Y").toList) = some (1, 4) ∧
      jsSubstring (("X123Y456Y").toList) 1 4 = ("123").toList) := by
  refine ⟨?_, ?_, rfl, rfl⟩
  · rintro content beforeText afterText ⟨i, j, hb, ha, hij⟩
    obtain ⟨s, e, hr⟩ := findRange_isSome_of content beforeText afterText i j hb ha hij
    obtain ⟨h1, h2, h3, h4, h5, h6⟩ := findRange_eq_some_spec content beforeText afterText s e hr
    exact ⟨s, e, hr, h1, h3, h4, h2, h5, h6⟩
  · intro content beforeText afterText hno
    cases hr : findRange content beforeText afterText with
    | none => rfl
    | some se =>
      obtain ⟨s, e⟩ := se
      obtain ⟨h1, h2, h3, _, h5, _⟩ := findRange_eq_some_spec content beforeText afterText s e hr
      exact (hno ⟨s - beforeText.length, e, h3, h5, by omega⟩).elim

/-- Witness for C3 at the concrete content of the claim. -/
theorem spec_c3_witness :
    occursAt (("X123Y456Y").toList) (("X").toList) 0 ∧
    occursAt (("X123Y456Y").toList) (("Y").toList) 4 ∧
    (∃ s e, findRange (("X123Y456Y").toList) (("X").toList) (("Y").toList) = some (s, e) ∧
      (("X").toList).length ≤ s ∧
      occursAt (("X123Y456Y").toList) (("X").toList) (s - (("X").toList).length) ∧
      (∀ m, m < s - (("X").toList).length → ¬ occursAt (("X123Y456Y").toList) (("X").toList) m) ∧
      s ≤ e ∧
      occursAt (("X123Y456Y").toList) (("Y").toList) e ∧
      (∀ j2, s ≤ j2 → j2 < e → ¬ occursAt (("X123Y456Y").toList) (("Y").toList) j2)) :=
  ⟨by decide, by decide,
    spec_c3.1 (("X123Y456Y").toList) (("X").toList) (("Y").toList)
      ⟨0, 4, by decide, by decide, by decide⟩⟩

/-- Claim C9: a successful `findRange` yields well-formed offsets — the
start is at least the length of `beforeText`, the span is ordered, the end
leaves room for `afterText`, the slices adjacent to the span equal the
markers, and every splice slice has its nominal (un-clamped) length. -/
theorem spec_c9 (content beforeText afterText : List Char) (s e : Nat)
    (h : findRange content beforeText afterText = some (s, e)) :
    beforeText.length ≤ s ∧ s ≤ e ∧ e + afterText.length ≤ content.length ∧
      (content.drop (s - beforeText.length)).take beforeText.length = beforeText ∧
      (content.drop e).take afterText.length = afterText ∧
      (content.take s).length = s ∧
      ((content.drop s).take (e - s)).length = e - s ∧
      (content.drop e).length = content.length - e := by
  obtain ⟨h1, h2, h3, _, h5, _⟩ := findRange_eq_some_spec content beforeText afterText s e h
  obtain ⟨hb1, hb2⟩ := h3
  obtain ⟨ha1, ha2⟩ := h5
  refine ⟨h1, h2, ha2, hb1, ha1, ?_, ?_, ?_⟩
  · rw [List.length_take]
    omega
  · rw [List.length_take, List.length_drop]
    omega
  · exact List.length_drop e content

/-- Witness for C9 at a concrete content with CRLF line endings. -/
theorem spec_c9_witness :
    (("X").toList).length ≤ 4 ∧ 4 ≤ 7 ∧
      7 + (("Y").toList).length ≤ (("a\r\nXmidY\r\nb").toList).length ∧
      ((("a\r\nXmidY\r\nb").toList).drop (4 - (("X").toList).length)).take
        (("X").toList).length = ("X").toList ∧
      ((("a\r\nXmidY\r\nb").toList).drop 7).take (("Y").toList).length = ("Y").toList ∧
      ((("a\r\nXmidY\r\nb").toList).take 4).length = 4 ∧
      (((("a\r\nXmidY\r\nb").toList).drop 4).take (7 - 4)).length = 7 - 4 ∧
      ((("a\r\nXmidY\r\nb").toList).drop 7).length = (("a\r\nXmidY\r\nb").toList).length - 7 :=
  spec_c9 (("a\r\nXmidY\r\nb").toList) (("X").toList) (("Y").toList) 4 7 rfl

/-- Claim C4: when the resolver finds no match, every marker-based mutation
operation fails with the range-not-found error and leaves the whole world
(in particular the file contents) untouched — no write is performed. -/
theorem spec_c4 (w : World) (allowed : List (List Char))
    (p targetPath validPath validTarget content beforeText afterText newText : List Char)
    (hv : validatePath w p allowed = Except.ok validPath)
    (hc : w.contents validPath = some content)
    (hr : findRange content beforeText afterText = none)
    (hvt : validatePath w targetPath allowed = Except.ok validTarget) :
    deleteRangeOp w allowed p beforeText afterText = (w, Except.error Err.rangeNotFound) ∧
    replaceBlockOp w allowed p beforeText afterText newText =
      (w, Except.error Err.rangeNotFound) ∧
    insertAtPositionOp w allowed p beforeText afterText newText =
      (w, Except.error Err.rangeNotFound) ∧
    copyToNewFileOp w allowed p targetPath beforeText afterText =
      (w, Except.error Err.rangeNotFound) ∧
    cutToNewFileOp w allowed p targetPath beforeText afterText =
      (w, Except.error Err.rangeNotFound) ∧
    appendToFileOp w allowed p targetPath beforeText afterText =
      (w, Except.error Err.rangeNotFound) := by
  refine ⟨?_, ?_, ?_, ?_, ?_, ?_⟩ <;>
    simp [deleteRangeOp, replaceBlockOp, insertAtPositionOp, copyToNewFileOp,
      cutToNewFileOp, appendToFileOp, hv, hvt, hc, hr]

/-- Witness for C4: markers absent from the concrete file leave the world
unchanged with the range-not-found error. -/
theorem spec_c4_witness :
    findRange (("a\r\nXmidY\r\nb").toList) (("zzz").toList) (("x").toList) = none ∧
    deleteRangeOp opsWorld allowedDataRoots (("/data/src.txt").toList) (("zzz").toList)
      (("x").toList) = (opsWorld, Except.error Err.rangeNotFound) ∧
    cutToNewFileOp opsWorld allowedDataRoots (("/data/src.txt").toList)
      (("/data/tgt.txt").toList) (("zzz").toList) (("x").toList) =
      (opsWorld, Except.error Err.rangeNotFound) := by
  have h := spec_c4 opsWorld allowedDataRoots (("/data/src.txt").toList)
    (("/data/tgt.txt").toList) (("/data/src.txt").toList) (("/data/tgt.txt").toList)
    (("a\r\nXmidY\r\nb").toList) (("zzz").toList) (("x").toList) [] rfl rfl rfl rfl
  exact ⟨rfl, h.1, h.2.2.2.2.1⟩

/-- Claim C5: with a resolved span, `replace_block` writes back exactly the
prefix before the span, the new content, and the suffix after the span —
byte for byte, whatever characters (such as CRLF line endings) the
untouched parts contain. -/
theorem spec_c5 (w : World) (allowed : List (List Char))
    (p validPath content beforeText afterText newText : List Char) (s e : Nat)
    (hv : validatePath w p allowed = Except.ok validPath)
    (hc : w.contents validPath = some content)
    (hr : findRange content beforeText afterText = some (s, e)) :
    (replaceBlockOp w allowed p beforeText afterText newText).1.contents validPath =
      some (content.take s ++ newText ++ content.drop e) ∧
    (replaceBlockOp w allowed p beforeText afterText newText).2 =
      Except.ok (("Successfully replaced content in ").toList ++ p) := by
  simp [replaceBlockOp, hv, hc, hr, writeFileW, jsSubstring_zero]

/-- Witness for C5 on a file with CRLF line endings on both sides of the
replaced block. -/
theorem spec_c5_witness :
    findRange (("a\r\nXmidY\r\nb").toList) (("X").toList) (("Y").toList) = some (4, 7) ∧
    (replaceBlockOp opsWorld allowedDataRoots (("/data/src.txt").toList) (("X").toList)
      (("Y").toList) (("NEW").toList)).1.contents (("/data/src.txt").toList) =
      some (("a\r\nXNEWY\r\nb").toList) := by
  have h := spec_c5 opsWorld allowedDataRoots (("/data/src.txt").toList)
    (("/data/src.txt").toList) (("a\r\nXmidY\r\nb").toList) (("X").toList) (("Y").toList)
    (("NEW").toList) 4 7 rfl rfl rfl
  exact ⟨rfl, h.1.trans (by decide)⟩

/-- Claim C6: with a resolved span and distinct validated paths,
`cut_to_new_file` leaves the target equal to the extracted span and the
source equal to the original with the span removed, and re-inserting the
extracted span at the original start offset into the new source content
reconstructs the original content exactly. -/
theorem spec_c6 (w : World) (allowed : List (List Char))
    (sourcePath targetPath validSource validTarget content beforeText afterText : List Char)
    (s e : Nat)
    (hne : validSource ≠ validTarget)
    (hvs : validatePath w sourcePath allowed = Except.ok validSource)
    (hvt : validatePath w targetPath allowed = Except.ok validTarget)
    (hc : w.contents validSource = some content)
    (hr : findRange content beforeText afterText = some (s, e)) :
    (cutToNewFileOp w allowed sourcePath targetPath beforeText afterText).1.contents validTarget =
      some ((content.drop s).take (e - s)) ∧
    (cutToNewFileOp w allowed sourcePath targetPath beforeText afterText).1.contents validSource =
      some (content.take s ++ content.drop e) ∧
    ((content.take s ++ content.drop e).take s ++
      ((content.drop s).take (e - s) ++ (content.take s ++ content.drop e).drop s)) = content := by
  obtain ⟨h1, h2, h3, h4, h5, h6⟩ := findRange_eq_some_spec content beforeText afterText s e hr
  have hel : e ≤ content.length := by
    obtain ⟨_, ha2⟩ := h5
    omega
  obtain ⟨t1, t2, t3⟩ := splice_reconstruct content s e h2 hel
  refine ⟨?_, ?_, ?_⟩
  · simp [cutToNewFileOp, hvs, hvt, hc, hr, writeFileW, jsSubstring_zero,
      jsSubstring_of_le content s e h2, Ne.symm hne]
  · simp [cutToNewFileOp, hvs, hvt, hc, hr, writeFileW, jsSubstring_zero,
      jsSubstring_of_le content s e h2]
  · rw [t1, t2]
    exact t3

/-- Witness for C6: cutting the bracketed block out of the concrete file
moves exactly the block and the halves reassemble to the original. -/
theorem spec_c6_witness :
    (cutToNewFileOp opsWorld allowedDataRoots (("/data/src.txt").toList)
      (("/data/tgt.txt").toList) (("X").toList) (("Y").toList)).1.contents
      (("/data/tgt.txt").toList) = some (("mid").toList) ∧
    (cutToNewFileOp opsWorld allowedDataRoots (("/data/src.txt").toList)
      (("/data/tgt.txt").toList) (("X").toList) (("Y").toList)).1.contents
      (("/data/src.txt").toList) = some (("a\r\nXY\r\nb").toList) := by
  have h := spec_c6 opsWorld allowedDataRoots (("/data/src.txt").toList)
    (("/data/tgt.txt").toList) (("/data/src.txt").toList) (("/data/tgt.txt").toList)
    (("a\r\nXmidY\r\nb").toList) (("X").toList) (("Y").toList) 4 7 (by decide) rfl rfl rfl rfl
  exact ⟨h.1.trans (by decide), h.2.1.trans (by decide)⟩

/-- Claim C7: whenever the inner dispatch of a tool call fails with any
error, the call boundary returns the failing world state together with a
result holding exactly one text block whose text begins with `Error: `
and whose error flag is set, instead of propagating the failure. -/
theorem spec_c7 (w : World) (allowed : List (List Char)) (req : ToolRequest)
    (w2 : World) (err : Err)
    (h : dispatchTool w allowed req = (w2, Except.error err)) :
    (handleCallTool w allowed req).1 = w2 ∧
    (handleCallTool w allowed req).2.isError = true ∧
    ∃ rest, (handleCallTool w allowed req).2.content =
      [{ type := ("text").toList, text := ("Error: ").toList ++ rest }] := by
  rw [handleCallTool, h]
  exact ⟨rfl, rfl, errMessage err, rfl⟩

/-- Witness for C7: a delete with absent markers surfaces as a single
error-flagged text block. -/
theorem spec_c7_witness :
    (handleCallTool opsWorld allowedDataRoots (ToolRequest.deleteRange
      (("/data/src.txt").toList) (("zzz").toList) (("x").toList))).1 = opsWorld ∧
    (handleCallTool opsWorld allowedDataRoots (ToolRequest.deleteRange
      (("/data/src.txt").toList) (("zzz").toList) (("x").toList))).2.isError = true ∧
    ∃ rest, (handleCallTool opsWorld allowedDataRoots (ToolRequest.deleteRange
      (("/data/src.txt").toList) (("zzz").toList) (("x").toList))).2.content =
      [{ type := ("text").toList, text := ("Error: ").toList ++ rest }] :=
  spec_c7 opsWorld allowedDataRoots (ToolRequest.deleteRange (("/data/src.txt").toList)
    (("zzz").toList) (("x").toList)) opsWorld Err.rangeNotFound rfl

/-- With an empty `afterText`, `findRange` returns the empty span sitting
immediately after the first occurrence of `beforeText`. -/
theorem findRange_empty_after (content beforeText : List Char) (i0 : Nat)
    (hf : findFrom content beforeText 0 = some i0) :
    findRange content beforeText [] =
      some (i0 + beforeText.length, i0 + beforeText.length) := by
  obtain ⟨f1, f2, f3, f4⟩ := findFrom_some content beforeText 0 i0 hf
  have hocc : occursAt content beforeText i0 :=
    (occursAt_iff content beforeText i0).mpr ⟨f3, f2⟩
  have hocc_e : occursAt content [] (i0 + beforeText.length) := by
    refine ⟨by simp, by simpa using hocc.2⟩
  obtain ⟨s, e, hr⟩ := findRange_isSome_of content beforeText [] i0
    (i0 + beforeText.length) hocc hocc_e (Nat.le_refl _)
  obtain ⟨h1, h2, h3, h4, h5, h6⟩ := findRange_eq_some_spec content beforeText [] s e hr
  have hi : s - beforeText.length = i0 := by
    by_contra hne2
    rcases Nat.lt_or_ge (s - beforeText.length) i0 with hlt | hge
    · have hc2 := (occursAt_iff content beforeText (s - beforeText.length)).mp h3
      rw [f4 (s - beforeText.length) (Nat.zero_le _) hlt] at hc2
      simp at hc2
    · exact h4 i0 (by omega) hocc
  have hs2 : s = i0 + beforeText.length := by omega
  have he : e = s := by
    by_contra hne2
    have hocc_s : occursAt content [] s := by
      refine ⟨by simp, ?_⟩
      simp only [List.length_nil, Nat.add_zero]
      have := hocc.2
      omega
    exact h6 s (Nat.le_refl s) (by omega) hocc_s
  rw [hr, he, hs2]

/-- Claim C10: with an empty `afterText` the resolved span is the empty
span just past the first occurrence of `beforeText`; `delete_range` then
rewrites the file with its content unchanged, and `replace_block` and
`insert_at_position` degenerate to pure insertion at that offset. -/
theorem spec_c10 (w : World) (allowed : List (List Char))
    (p validPath content beforeText insertText : List Char) (i0 : Nat)
    (hv : validatePath w p allowed = Except.ok validPath)
    (hc : w.contents validPath = some content)
    (hf : findFrom content beforeText 0 = some i0) :
    occursAt content beforeText i0 ∧
    (∀ m, m < i0 → ¬ occursAt content beforeText m) ∧
    findRange content beforeText [] =
      some (i0 + beforeText.length, i0 + beforeText.length) ∧
    (deleteRangeOp w allowed p beforeText []).1.contents validPath = some content ∧
    (deleteRangeOp w allowed p beforeText []).2 =
      Except.ok (("Successfully deleted content from ").toList ++ p) ∧
    (replaceBlockOp w allowed p beforeText [] insertText).1.contents validPath =
      some (content.take (i0 + beforeText.length) ++ insertText ++
        content.drop (i0 + beforeText.length)) ∧
    (insertAtPositionOp w allowed p beforeText [] insertText).1.contents validPath =
      some (content.take (i0 + beforeText.length) ++ insertText ++
        content.drop (i0 + beforeText.length)) := by
  obtain ⟨f1, f2, f3, f4⟩ := findFrom_some content beforeText 0 i0 hf
  have hocc : occursAt content beforeText i0 :=
    (occursAt_iff content beforeText i0).mpr ⟨f3, f2⟩
  have hmin : ∀ m, m < i0 → ¬ occursAt content beforeText m := by
    intro m hm hcon
    have hc2 := (occursAt_iff content beforeText m).mp hcon
    rw [f4 m (Nat.zero_le m) hm] at hc2
    simp at hc2
  have hfr := findRange_empty_after content beforeText i0 hf
  refine ⟨hocc, hmin, hfr, ?_, ?_, ?_, ?_⟩
  · simp [deleteRangeOp, hv, hc, hfr, writeFileW, jsSubstring_zero]
  · simp [deleteRangeOp, hv, hc, hfr]
  · simp [replaceBlockOp, hv, hc, hfr, writeFileW, jsSubstring_zero]
  · simp [insertAtPositionOp, hv, hc, hfr, writeFileW, jsSubstring_zero]

/-- Witness for C10: an empty `afterText` on the concrete file gives the
empty span after the first `X`, an unchanged delete, and a pure insert. -/
theorem spec_c10_witness :
    findRange (("a\r\nXmidY\r\nb").toList) (("X").toList) [] = some (4, 4) ∧
    (deleteRangeOp opsWorld allowedDataRoots (("/data/src.txt").toList) (("X").toList)
      []).1.contents (("/data/src.txt").toList) = some (("a\r\nXmidY\r\nb").toList) ∧
    (insertAtPositionOp opsWorld allowedDataRoots (("/data/src.txt").toList) (("X").toList)
      [] (("NEW").toList)).1.contents (("/data/src.txt").toList) =
      some (("a\r\nXNEWmidY\r\nb").toList) := by
  have h := spec_c10 opsWorld allowedDataRoots (("/data/src.txt").toList)
    (("/data/src.txt").toList) (("a\r\nXmidY\r\nb").toList) (("X").toList)
    (("NEW").toList) 3 rfl rfl rfl
  exact ⟨h.2.2.1.trans (by decide), h.2.2.2.1, h.2.2.2.2.2.2.trans (by decide)⟩

/-- Global literal replace on a run of matches: with enough fuel every
occurrence in `aa...a` is replaced. -/
theorem jsReplaceAllGo_replicate : ∀ n fuel, n < fuel →
    jsReplaceAllGo (['a']) (['b']) fuel (List.replicate n 'a') = List.replicate n 'b' := by
  intro n
  induction n with
  | zero =>
    intro fuel hf
    cases fuel with
    | zero => omega
    | succ k => simp [jsReplaceAllGo, startsWithChars]
  | succ n ih =>
    intro fuel hf
    cases fuel with
    | zero => omega
    | succ k =>
      have hk : n < k := by omega
      rw [List.replicate_succ, List.replicate_succ]
      simp [jsReplaceAllGo, startsWithChars, ih k hk]

/-- Claim C8: `replace_by_pattern` substitutes on the whole content; with
the global flag every match is replaced (`aaa` with pattern `a` and
replacement `b` gives `bbb`, and in general a run of `n` matches is fully
replaced), without it only the first match is (`baa`), the first-match
splice being at the least occurrence; and the operation writes exactly the
substituted content back to the validated file. -/
theorem spec_c8 :
    (replaceByPatternContent (("aaa").toList) (("a").toList) (some (("g").toList))
      (("b").toList) = ("bbb").toList) ∧
    (replaceByPatternContent (("aaa").toList) (("a").toList) none (("b").toList) =
      ("baa").toList) ∧
    (∀ n, jsReplaceAll (List.replicate n 'a') (['a']) (['b']) = List.replicate n 'b') ∧
    (∀ content pat repl : List Char, ∀ i, findFrom content pat 0 = some i →
      jsReplaceFirst content pat repl =
        content.take i ++ repl ++ content.drop (i + pat.length) ∧
      ∀ m, m < i → ¬ occursAt content pat m) ∧
    (∀ (w : World) (allowed : List (List Char)) (p validPath content pat : List Char)
      (flags : Option (List Char)) (repl : List Char),
      validatePath w p allowed = Except.ok validPath →
      w.contents validPath = some content →
      (replaceByPatternOp w allowed p pat flags repl).1.contents validPath =
        some (replaceByPatternContent content pat flags repl)) := by
  refine ⟨rfl, rfl, ?_, ?_, ?_⟩
  · intro n
    exact jsReplaceAllGo_replicate n ((List.replicate n 'a').length + 1)
      (by simp [List.length_replicate])
  · intro content pat repl i hf
    obtain ⟨f1, f2, f3, f4⟩ := findFrom_some content pat 0 i hf
    refine ⟨by rw [jsReplaceFirst, hf], ?_⟩
    intro m hm hcon
    have hc2 := (occursAt_iff content pat m).mp hcon
    rw [f4 m (Nat.zero_le m) hm] at hc2
    simp at hc2
  · intro w allowed p validPath content pat flags repl hv hc
    simp [replaceByPatternOp, hv, hc, writeFileW]

/-- Witness for C8: the global replace on a concrete run and the write-back
of the substituted content on the concrete file. -/
theorem spec_c8_witness :
    jsReplaceAll (List.replicate 3 'a') (['a']) (['b']) = List.replicate 3 'b' ∧
    (replaceByPatternOp opsWorld allowedDataRoots (("/data/src.txt").toList)
      (("mid").toList) none (("Q").toList)).1.contents (("/data/src.txt").toList) =
      some (replaceByPatternContent (("a\r\nXmidY\r\nb").toList) (("mid").toList) none
        (("Q").toList)) :=
  ⟨spec_c8.2.2.1 3,
    spec_c8.2.2.2.2 opsWorld allowedDataRoots (("/data/src.txt").toList)
      (("/data/src.txt").toList) (("a\r\nXmidY\r\nb").toList) (("mid").toList) none
      (("Q").toList) rfl rfl⟩
